import Mathlib

/-!
Verification of the sortby crate (src/lib.rs): a lazy, composable multi-key
sort adapter over iterators.

Embedding choices:
* An upstream iterator is modelled as the `List` of the elements it will
  yield; `std::vec::IntoIter` in the `Sorted` state is modelled as the list
  of its not-yet-yielded elements.
* `Ordering::{Less, Equal, Greater}` is Lean's `Ordering.{lt, eq, gt}`.
* `PartialOrd::partial_cmp` for a key type is an explicit argument
  `pc : β → β → Option Ordering`; Rust's `unwrap_or(Ordering::Equal)` is
  `Option.getD · Ordering.eq`.
* Panics (`Option::unwrap` on `None`, the `panic!("unsorted")` in
  `unwrap_sorted`) are modelled by `Except String`.
* `Vec::sort_by` is, per its documented contract, a stable comparison sort;
  it is modelled by a stable insertion sort `sortVec`.
-/

namespace Sortby

variable {α β γ : Type}

/-- Model of the boxed comparison closure `CompareFn<T>` from lib.rs. -/
def CompareFn (α : Type) : Type := α → α → Ordering

/-- Model of `enum IterState<I>`: `Unsorted` owns the upstream iterator
wrapped in an `Option` (so it can be `take`n), `Sorted` owns the buffer
iterator, modelled as the remaining sorted elements. -/
inductive IterState (α : Type) : Type where
  | Unsorted : Option (List α) → IterState α
  | Sorted : List α → IterState α

/-- Model of `IterState::unwrap_sorted`: panics (error) on `Unsorted`,
returns the buffer iterator on `Sorted`. -/
def IterState.unwrap_sorted : IterState α → Except String (List α)
  | .Unsorted _ => .error "unsorted"
  | .Sorted l => .ok l

/-- Model of `struct SortBy<I>`. -/
structure SortBy (α : Type) : Type where
  iter : IterState α
  compare : CompareFn α

/-- Model of `Vec::sort_by`, which lib.rs trusts as a stable comparison
sort: a stable insertion sort. An element is inserted after every element
it compares `Greater` than, hence before every equal-comparing element
that arrived later. -/
def insertCmp (cmp : CompareFn α) (x : α) : List α → List α
  | [] => [x]
  | y :: ys =>
    match cmp x y with
    | .gt => y :: insertCmp cmp x ys
    | _ => x :: y :: ys

/-- Stable sort of the drained buffer with the composed comparator. -/
def sortVec (cmp : CompareFn α) : List α → List α
  | [] => []
  | x :: xs => insertCmp cmp x (sortVec cmp xs)

/-- Model of `SortByIteratorExt::sort_by`: wraps the upstream iterator
unstaged, with comparator `f(a).partial_cmp(&f(b)).unwrap_or(Equal)`. -/
def sort_by (it : List α) (pc : β → β → Option Ordering) (f : α → β) : SortBy α :=
  { iter := IterState.Unsorted (some it)
    compare := fun a b => (pc (f a) (f b)).getD Ordering.eq }

/-- Model of `SortByIteratorExt::sort_by_desc`: same, with operands of the
key comparison swapped: `f(b).partial_cmp(&f(a)).unwrap_or(Equal)`. -/
def sort_by_desc (it : List α) (pc : β → β → Option Ordering) (f : α → β) : SortBy α :=
  { iter := IterState.Unsorted (some it)
    compare := fun a b => (pc (f b) (f a)).getD Ordering.eq }

/-- Model of `SortBy::then_sort_by`: keeps the staging state, wraps the
previous comparator; the new key is consulted only on `Equal`. -/
def SortBy.then_sort_by (s : SortBy α) (pc : β → β → Option Ordering)
    (f : α → β) : SortBy α :=
  { iter := s.iter
    compare := fun a b =>
      match s.compare a b with
      | .lt => .lt
      | .gt => .gt
      | .eq => (pc (f a) (f b)).getD Ordering.eq }

/-- Model of `SortBy::then_sort_by_desc`: as `then_sort_by` with the new
key's operands swapped. -/
def SortBy.then_sort_by_desc (s : SortBy α) (pc : β → β → Option Ordering)
    (f : α → β) : SortBy α :=
  { iter := s.iter
    compare := fun a b =>
      match s.compare a b with
      | .lt => .lt
      | .gt => .gt
      | .eq => (pc (f b) (f a)).getD Ordering.eq }

/-- Model of `<SortBy as Iterator>::next`: on `Unsorted`, takes the source
(`unwrap` of the `Option` may panic), drains and stable-sorts it,
transitions to `Sorted`, and pulls via `unwrap_sorted`; on `Sorted`, pulls
the next buffered element. Returns the yielded item and the successor
adapter state. -/
def SortBy.next (s : SortBy α) : Except String (Option α × SortBy α) :=
  match s.iter with
  | .Unsorted o =>
    match o with
    | none => .error "called unwrap on a None value"
    | some it =>
      match (IterState.Sorted (sortVec s.compare it) : IterState α).unwrap_sorted with
      | .error e => .error e
      | .ok l =>
        match l with
        | [] => .ok (none, { iter := IterState.Sorted [], compare := s.compare })
        | x :: xs => .ok (some x, { iter := IterState.Sorted xs, compare := s.compare })
  | .Sorted l =>
    match l with
    | [] => .ok (none, { iter := IterState.Sorted [], compare := s.compare })
    | x :: xs => .ok (some x, { iter := IterState.Sorted xs, compare := s.compare })

/-- Model of `impl From<SortBy> for Vec`: on `Unsorted`, takes the source
(`unwrap` may panic), drains and stable-sorts it, returning the buffer
directly; on `Sorted`, collects only the remaining buffered elements. -/
def vec_from (s : SortBy α) : Except String (List α) :=
  match s.iter with
  | .Unsorted o =>
    match o with
    | none => .error "called unwrap on a None value"
    | some it => .ok (sortVec s.compare it)
  | .Sorted l => .ok l

/-- Repeatedly pull from the adapter (fuel-bounded), collecting the yielded
elements until `next` signals end-of-sequence, fuel runs out, or a panic
occurs. -/
def drainFuel : Nat → SortBy α → Except String (List α)
  | 0, _ => .ok []
  | n + 1, s =>
    match s.next with
    | .error e => .error e
    | .ok (none, _) => .ok []
    | .ok (some x, s') => (drainFuel n s').map (fun l => x :: l)

/-- Composition step used by `then_sort_by` and `then_sort_by_desc`: the
previous comparator decides unless it returns `Equal`. -/
def thenCmp (prev nxt : CompareFn α) : CompareFn α := fun a b =>
  match prev a b with
  | .lt => .lt
  | .gt => .gt
  | .eq => nxt a b

/-- Single ascending key comparator, as installed by `sort_by` and
`then_sort_by`. -/
def cmpKeyAsc (pc : β → β → Option Ordering) (f : α → β) : CompareFn α :=
  fun a b => (pc (f a) (f b)).getD Ordering.eq

/-- Single descending key comparator, as installed by `sort_by_desc` and
`then_sort_by_desc`. -/
def cmpKeyDesc (pc : β → β → Option Ordering) (f : α → β) : CompareFn α :=
  fun a b => (pc (f b) (f a)).getD Ordering.eq

/-- Generic comparator-level extension: `then_sort_by` (resp. desc) is
`then_with` at the corresponding single-key comparator. -/
def then_with (s : SortBy α) (c : CompareFn α) : SortBy α :=
  { iter := s.iter, compare := thenCmp s.compare c }

/-- Specification-style evaluation of a key chain: the first comparator
that returns other than `Equal` decides; if all return `Equal`, the result
is `Equal`. -/
def evalChain : List (CompareFn α) → CompareFn α
  | [] => fun _ _ => Ordering.eq
  | c :: cs => fun a b =>
    match c a b with
    | .eq => evalChain cs a b
    | o => o

/-- Total-order partial comparison, the `PartialOrd` impl of ordered key
types such as integers and strings. -/
def pcmpOf [Ord β] (a b : β) : Option Ordering := some (compare a b)

/-- Reachability through the public API. The constructors cover every way
the crate lets a caller obtain a `SortBy` value: `sort_by` and
`sort_by_desc` produce an unstaged adapter holding `Some` source (for any
key, hence for any comparator closure); `then_sort_by` and
`then_sort_by_desc` keep the state and wrap the comparator with `thenCmp`;
`next` hands back the successor state. -/
inductive Reachable : SortBy α → Prop where
  | create (it : List α) (c : CompareFn α) :
      Reachable { iter := IterState.Unsorted (some it), compare := c }
  | extend (s : SortBy α) (c : CompareFn α) : Reachable s →
      Reachable { iter := s.iter, compare := thenCmp s.compare c }
  | step (s s' : SortBy α) (o : Option α) : Reachable s →
      SortBy.next s = .ok (o, s') → Reachable s'

/-- Invariant maintained through the public API: an unstaged adapter always
holds `Some` upstream source. -/
def SourcePresent (s : SortBy α) : Prop :=
  ∀ o, s.iter = IterState.Unsorted o → o ≠ none

/-- Comparator treating all Booleans as equal; a witness fixture. -/
def cmpEqBool : CompareFn Bool := fun _ _ => Ordering.eq

/-- Unstaged adapter over [true, false] with `cmpEqBool`; a witness fixture. -/
def wBool : SortBy Bool :=
  { iter := IterState.Unsorted (some [true, false]), compare := cmpEqBool }

/-- Natural-number comparator; a witness fixture. -/
def cmpNat : CompareFn Nat := fun a b => compare a b

/-- Unstaged adapter over [3, 1, 2] with `cmpNat`; a witness fixture. -/
def wNat : SortBy Nat :=
  { iter := IterState.Unsorted (some [3, 1, 2]), compare := cmpNat }

/-- Staged adapter with remaining buffer [1, 2]; a witness fixture. -/
def wStaged : SortBy Nat :=
  { iter := IterState.Sorted [1, 2], compare := cmpNat }

/-- Exhausted staged adapter; a witness fixture. -/
def wDone : SortBy Nat :=
  { iter := IterState.Sorted [], compare := cmpNat }

/-- Partial comparison that relates nothing (NaN-like); a witness fixture. -/
def pcmpNone : Bool → Bool → Option Ordering := fun _ _ => none

/-! Helper lemmas about the composed comparator chain. -/

theorem evalChain_singleton (c : CompareFn α) (a b : α) :
    evalChain [c] a b = c a b := by
  show (match c a b with | .eq => evalChain [] a b | o => o) = c a b
  cases c a b <;> rfl

theorem evalChain_thenCmp (p c : CompareFn α) (cs : List (CompareFn α)) (a b : α) :
    evalChain (thenCmp p c :: cs) a b = evalChain (p :: c :: cs) a b := by
  show (match thenCmp p c a b with | .eq => evalChain cs a b | o => o) =
    (match p a b with | .eq => evalChain (c :: cs) a b | o => o)
  unfold thenCmp
  cases p a b <;> cases hc : c a b <;> simp [evalChain, hc]

theorem foldl_then_with_compare (cs : List (CompareFn α)) :
    ∀ (s : SortBy α) (a b : α),
      (List.foldl then_with s cs).compare a b = evalChain (s.compare :: cs) a b := by
  induction cs with
  | nil =>
    intro s a b
    rw [List.foldl_nil, evalChain_singleton]
  | cons c cs ih =>
    intro s a b
    rw [List.foldl_cons, ih (then_with s c) a b]
    exact evalChain_thenCmp s.compare c cs a b

theorem foldl_then_with_iter (cs : List (CompareFn α)) :
    ∀ (s : SortBy α), (List.foldl then_with s cs).iter = s.iter := by
  induction cs with
  | nil => intro s; rfl
  | cons c cs ih => intro s; rw [List.foldl_cons, ih]; rfl

/-! Helper lemmas about the stable sort `sortVec`. -/

theorem insertCmp_perm (cmp : CompareFn α) (x : α) (l : List α) :
    (insertCmp cmp x l).Perm (x :: l) := by
  induction l with
  | nil => exact List.Perm.refl _
  | cons y ys ih =>
    show (match cmp x y with
      | .gt => y :: insertCmp cmp x ys
      | _ => x :: y :: ys).Perm (x :: y :: ys)
    cases cmp x y with
    | gt => exact (ih.cons y).trans (List.Perm.swap x y ys)
    | lt => exact List.Perm.refl _
    | eq => exact List.Perm.refl _

theorem sortVec_perm (cmp : CompareFn α) (l : List α) :
    (sortVec cmp l).Perm l := by
  induction l with
  | nil => exact List.Perm.refl _
  | cons x xs ih =>
    show (insertCmp cmp x (sortVec cmp xs)).Perm (x :: xs)
    exact (insertCmp_perm cmp x (sortVec cmp xs)).trans (ih.cons x)

theorem sortVec_length (cmp : CompareFn α) (l : List α) :
    (sortVec cmp l).length = l.length :=
  (sortVec_perm cmp l).length_eq

theorem filter_insertCmp_neg (cmp : CompareFn α) (p : α → Bool) (x : α)
    (l : List α) (hx : p x = false) :
    (insertCmp cmp x l).filter p = l.filter p := by
  induction l with
  | nil => simp [insertCmp, hx]
  | cons y ys ih =>
    show (match cmp x y with
      | .gt => y :: insertCmp cmp x ys
      | _ => x :: y :: ys).filter p = (y :: ys).filter p
    cases cmp x y with
    | gt => simp [List.filter_cons, ih]
    | lt => simp [List.filter_cons, hx]
    | eq => simp [List.filter_cons, hx]

theorem filter_insertCmp_pos (cmp : CompareFn α) (p : α → Bool) (x : α)
    (l : List α) (hx : p x = true)
    (h : ∀ y ∈ l, p y = true → cmp x y = Ordering.eq) :
    (insertCmp cmp x l).filter p = x :: l.filter p := by
  induction l with
  | nil => simp [insertCmp, hx]
  | cons y ys ih =>
    show (match cmp x y with
      | .gt => y :: insertCmp cmp x ys
      | _ => x :: y :: ys).filter p = x :: (y :: ys).filter p
    cases hcy : cmp x y with
    | gt =>
      have hy : p y = false := by
        cases hpy : p y with
        | false => rfl
        | true =>
          have := h y (List.mem_cons_self y ys) hpy
          rw [hcy] at this
          cases this
      have ih2 := ih (fun z hz hpz => h z (List.mem_cons_of_mem y hz) hpz)
      simp [List.filter_cons, hy, ih2]
    | lt => simp [List.filter_cons, hx]
    | eq => simp [List.filter_cons, hx]

theorem filter_sortVec (cmp : CompareFn α) (p : α → Bool)
    (h : ∀ x y, p x = true → p y = true → cmp x y = Ordering.eq) (l : List α) :
    (sortVec cmp l).filter p = l.filter p := by
  induction l with
  | nil => rfl
  | cons x xs ih =>
    show (insertCmp cmp x (sortVec cmp xs)).filter p = (x :: xs).filter p
    cases hx : p x with
    | false => rw [filter_insertCmp_neg cmp p x _ hx, ih]; simp [List.filter_cons, hx]
    | true =>
      rw [filter_insertCmp_pos cmp p x _ hx (fun y _ hpy => h x y hx hpy), ih]
      simp [List.filter_cons, hx]

/-! Helper lemmas about `next`, `vec_from` and `drainFuel`. -/

theorem next_sorted (c : CompareFn α) (l : List α) :
    SortBy.next { iter := IterState.Sorted l, compare := c } =
      .ok (l.head?, { iter := IterState.Sorted l.tail, compare := c }) := by
  cases l <;> rfl

theorem next_unsorted_none (c : CompareFn α) :
    SortBy.next { iter := IterState.Unsorted none, compare := c } =
      .error "called unwrap on a None value" := rfl

theorem next_unsorted (c : CompareFn α) (it : List α) :
    SortBy.next { iter := IterState.Unsorted (some it), compare := c } =
      .ok ((sortVec c it).head?,
        { iter := IterState.Sorted (sortVec c it).tail, compare := c }) := by
  simp only [SortBy.next, IterState.unwrap_sorted]
  cases sortVec c it <;> rfl

theorem drainFuel_sorted (c : CompareFn α) (l : List α) (n : Nat) :
    drainFuel n { iter := IterState.Sorted l, compare := c } = .ok (l.take n) := by
  induction n generalizing l with
  | zero => rfl
  | succ n ih =>
    cases l with
    | nil => rfl
    | cons x xs =>
      simp only [drainFuel, next_sorted, List.head?_cons, List.tail_cons, ih xs,
        Except.map, List.take_succ_cons]

theorem drainFuel_unsorted (c : CompareFn α) (it : List α) (n : Nat)
    (h : it.length ≤ n) :
    drainFuel (n + 1) { iter := IterState.Unsorted (some it), compare := c } =
      .ok (sortVec c it) := by
  have hlen : (sortVec c it).length = it.length := sortVec_length c it
  simp only [drainFuel, next_unsorted]
  cases hs : sortVec c it with
  | nil => rfl
  | cons x xs =>
    have hxs : xs.length ≤ n := by
      have : xs.length + 1 = it.length := by rw [← hlen, hs, List.length_cons]
      omega
    simp only [List.head?_cons, List.tail_cons, drainFuel_sorted c xs n,
      List.take_of_length_le hxs, Except.map]

theorem reachable_sourcePresent {s : SortBy α} (h : Reachable s) :
    SourcePresent s := by
  induction h with
  | create it c =>
    intro o ho hnone
    cases ho
    cases hnone
  | extend s c _ ih => exact ih
  | step s s' o hr hnext ih =>
    intro o' ho' hnone
    subst hnone
    obtain ⟨i, cp⟩ := s
    cases i with
    | Unsorted osrc =>
      cases osrc with
      | none =>
        rw [next_unsorted_none] at hnext
        cases hnext
      | some it =>
        rw [next_unsorted] at hnext
        cases hnext
        cases ho'
    | Sorted l =>
      rw [next_sorted] at hnext
      cases hnext
      cases ho'

/-- Helper for C6: an incomparable key link in a chain defers exactly to
the rest of the chain. -/
theorem evalChain_skip (pc : β → β → Option Ordering) (f : α → β) (a b : α)
    (h : pc (f a) (f b) = none) (cs1 cs2 : List (CompareFn α)) :
    evalChain (cs1 ++ cmpKeyAsc pc f :: cs2) a b = evalChain (cs1 ++ cs2) a b := by
  induction cs1 with
  | nil =>
    show (match cmpKeyAsc pc f a b with
      | .eq => evalChain cs2 a b
      | o => o) = evalChain cs2 a b
    unfold cmpKeyAsc
    rw [h]
    rfl
  | cons c cs1 ih =>
    show (match c a b with
      | .eq => evalChain (cs1 ++ cmpKeyAsc pc f :: cs2) a b
      | o => o) =
      (match c a b with
      | .eq => evalChain (cs1 ++ cs2) a b
      | o => o)
    cases c a b <;> simp [ih]

/-! The claims. -/

/-- C1: keys added via sort_by / sort_by_desc and then_sort_by /
then_sort_by_desc are evaluated in addition order: the composed comparator
returns the first non-Equal key comparison, and Equal when every key
comparison is Equal (this evaluation order is the definition of
`evalChain`). First conjunct: each extension call is the generic step
`then_with` at the corresponding single-key comparator. Second and third
conjuncts: an adapter built from sort_by (resp. sort_by_desc) and extended
by any chain of comparator steps compares exactly like `evalChain` over the
key chain in addition order. Last conjunct: the spec's concrete example,
sorting [(1,"b"), (1,"a"), (2,"a")] ascending by first then ascending by
second component yields [(1,"a"), (1,"b"), (2,"a")]. -/
theorem c1_key_chain_composition :
    (∀ (α β : Type) (s : SortBy α) (pc : β → β → Option Ordering) (f : α → β),
      s.then_sort_by pc f = then_with s (cmpKeyAsc pc f) ∧
      s.then_sort_by_desc pc f = then_with s (cmpKeyDesc pc f)) ∧
    (∀ (α β : Type) (it : List α) (pc : β → β → Option Ordering) (f : α → β)
      (cs : List (CompareFn α)) (a b : α),
      (List.foldl then_with (sort_by it pc f) cs).compare a b =
        evalChain (cmpKeyAsc pc f :: cs) a b) ∧
    (∀ (α β : Type) (it : List α) (pc : β → β → Option Ordering) (f : α → β)
      (cs : List (CompareFn α)) (a b : α),
      (List.foldl then_with (sort_by_desc it pc f) cs).compare a b =
        evalChain (cmpKeyDesc pc f :: cs) a b) ∧
    vec_from ((sort_by [(1, "b"), (1, "a"), (2, "a")] pcmpOf Prod.fst).then_sort_by
        pcmpOf Prod.snd) =
      .ok [(1, "a"), (1, "b"), (2, "a")] := by
  refine ⟨fun α β s pc f => ⟨rfl, rfl⟩, ?_, ?_, ?_⟩
  · intro α β it pc f cs a b
    exact foldl_then_with_compare cs (sort_by it pc f) a b
  · intro α β it pc f cs a b
    exact foldl_then_with_compare cs (sort_by_desc it pc f) a b
  · rfl

/-- C2: the sort performed at staging is stable. For an unstaged adapter
over source l, the staged buffer is sortVec of l; for any class of elements
that are pairwise Equal under the composed comparator (i.e. equal on every
active key, by C1), the buffer's subsequence of class members equals the
source's, i.e. their relative order is the arrival order; the buffer is a
permutation of the source; and both conversion (vec_from) and repeated
next() calls (drainFuel) produce exactly this buffer. -/
theorem c2_staging_sort_stable (α : Type) (s : SortBy α) (l : List α)
    (p : α → Bool) (hiter : s.iter = IterState.Unsorted (some l))
    (hp : ∀ x y, p x = true → p y = true → s.compare x y = Ordering.eq) :
    vec_from s = .ok (sortVec s.compare l) ∧
    (sortVec s.compare l).filter p = l.filter p ∧
    (sortVec s.compare l).Perm l ∧
    (∀ n, l.length ≤ n → drainFuel (n + 1) s = .ok (sortVec s.compare l)) := by
  obtain ⟨i, c⟩ := s
  cases hiter
  exact ⟨rfl, filter_sortVec c p hp l, sortVec_perm c l,
    fun n hn => drainFuel_unsorted c l n hn⟩

theorem c2_staging_sort_stable_witness :
    vec_from wBool = .ok (sortVec wBool.compare [true, false]) ∧
    (sortVec wBool.compare [true, false]).filter (fun _ => true) =
      ([true, false].filter fun _ => true) ∧
    (sortVec wBool.compare [true, false]).Perm [true, false] ∧
    (∀ n, [true, false].length ≤ n →
      drainFuel (n + 1) wBool = .ok (sortVec wBool.compare [true, false])) :=
  c2_staging_sort_stable Bool wBool [true, false] (fun _ => true) rfl (by decide)

/-- C3: a descending key inverts only its own contribution. First conjunct:
a descending primary key is the ascending one with operands swapped, and a
descending tie-break key is then_with at the ascending key comparator with
operands swapped, the previous comparator untouched. Second conjunct: when
a higher-priority chain has already decided (non-Equal), appending a key,
ascending or descending, leaves the outcome unchanged. Third conjunct: a
key appended below a descending key is still evaluated ascending, exactly
as written. Last conjunct: the spec's concrete example, sorting
[(18,"Rich"), (9,"Bob"), (21,"Marc"), (18,"Alice")] descending by first
component then ascending by second yields
[(21,"Marc"), (18,"Alice"), (18,"Rich"), (9,"Bob")]. -/
theorem c3_descending_inverts_only_itself :
    (∀ (α β : Type) (it : List α) (pc : β → β → Option Ordering) (f : α → β)
      (a b : α) (s : SortBy α),
      (sort_by_desc it pc f).compare a b = (sort_by it pc f).compare b a ∧
      (s.then_sort_by_desc pc f).compare a b =
        thenCmp s.compare (fun x y => cmpKeyAsc pc f y x) a b) ∧
    (∀ (α β : Type) (s : SortBy α) (pc : β → β → Option Ordering) (f : α → β)
      (a b : α), s.compare a b ≠ Ordering.eq →
      (s.then_sort_by pc f).compare a b = s.compare a b ∧
      (s.then_sort_by_desc pc f).compare a b = s.compare a b) ∧
    (∀ (α β γ : Type) (s : SortBy α) (pc : β → β → Option Ordering) (f : α → β)
      (pc2 : γ → γ → Option Ordering) (g : α → γ) (a b : α),
      s.compare a b = Ordering.eq → pc (f b) (f a) = some Ordering.eq →
      ((s.then_sort_by_desc pc f).then_sort_by pc2 g).compare a b =
        (pc2 (g a) (g b)).getD Ordering.eq) ∧
    vec_from ((sort_by_desc [(18, "Rich"), (9, "Bob"), (21, "Marc"), (18, "Alice")]
        pcmpOf Prod.fst).then_sort_by pcmpOf Prod.snd) =
      .ok [(21, "Marc"), (18, "Alice"), (18, "Rich"), (9, "Bob")] := by
  refine ⟨fun α β it pc f a b s => ⟨rfl, rfl⟩, ?_, ?_, ?_⟩
  · intro α β s pc f a b hne
    show (match s.compare a b with
      | .lt => Ordering.lt
      | .gt => .gt
      | .eq => (pc (f a) (f b)).getD Ordering.eq) = s.compare a b ∧
      (match s.compare a b with
      | .lt => Ordering.lt
      | .gt => .gt
      | .eq => (pc (f b) (f a)).getD Ordering.eq) = s.compare a b
    cases h : s.compare a b with
    | lt => exact ⟨rfl, rfl⟩
    | gt => exact ⟨rfl, rfl⟩
    | eq => exact absurd h hne
  · intro α β γ s pc f pc2 g a b heq hkey
    show (match (s.then_sort_by_desc pc f).compare a b with
      | .lt => Ordering.lt
      | .gt => .gt
      | .eq => (pc2 (g a) (g b)).getD Ordering.eq) =
      (pc2 (g a) (g b)).getD Ordering.eq
    have : (s.then_sort_by_desc pc f).compare a b = Ordering.eq := by
      show (match s.compare a b with
        | .lt => Ordering.lt
        | .gt => .gt
        | .eq => (pc (f b) (f a)).getD Ordering.eq) = Ordering.eq
      rw [heq, hkey]
      rfl
    rw [this]
  · rfl

theorem c3_descending_inverts_only_itself_witness :
    ((sort_by_desc [1] pcmpOf (fun v : Nat => v)).compare 1 2 =
      (sort_by [1] pcmpOf (fun v : Nat => v)).compare 2 1 ∧
      (wNat.then_sort_by_desc pcmpOf (fun v : Nat => v)).compare 1 2 =
        thenCmp wNat.compare
          (fun x y => cmpKeyAsc pcmpOf (fun v : Nat => v) y x) 1 2) ∧
    ((wNat.then_sort_by pcmpOf (fun v : Nat => v)).compare 1 2 =
        wNat.compare 1 2 ∧
      (wNat.then_sort_by_desc pcmpOf (fun v : Nat => v)).compare 1 2 =
        wNat.compare 1 2) ∧
    ((wNat.then_sort_by_desc pcmpOf (fun v : Nat => v)).then_sort_by pcmpOf
        (fun v : Nat => v)).compare 1 1 = (pcmpOf 1 1).getD Ordering.eq ∧
    vec_from ((sort_by_desc [(18, "Rich"), (9, "Bob"), (21, "Marc"), (18, "Alice")]
        pcmpOf Prod.fst).then_sort_by pcmpOf Prod.snd) =
      .ok [(21, "Marc"), (18, "Alice"), (18, "Rich"), (9, "Bob")] :=
  ⟨c3_descending_inverts_only_itself.1 Nat Nat [1] pcmpOf (fun v => v) 1 2 wNat,
    c3_descending_inverts_only_itself.2.1 Nat Nat wNat pcmpOf (fun v => v) 1 2
      (by decide),
    c3_descending_inverts_only_itself.2.2.1 Nat Nat Nat wNat pcmpOf (fun v => v)
      pcmpOf (fun v => v) 1 1 (by decide) (by decide),
    c3_descending_inverts_only_itself.2.2.2⟩

/-- C4: converting a not-yet-staged adapter directly into a Vec yields
exactly the same elements in the same order as consuming it by repeated
next() calls until end-of-sequence (any sufficient fuel). -/
theorem c4_conversion_equals_iteration (α : Type) (s : SortBy α) (l : List α)
    (n : Nat) (hiter : s.iter = IterState.Unsorted (some l))
    (h : l.length ≤ n) :
    drainFuel (n + 1) s = vec_from s ∧
    vec_from s = .ok (sortVec s.compare l) := by
  obtain ⟨i, c⟩ := s
  cases hiter
  exact ⟨drainFuel_unsorted c l n h, rfl⟩

theorem c4_conversion_equals_iteration_witness :
    drainFuel (3 + 1) wNat = vec_from wNat ∧
    vec_from wNat = .ok (sortVec wNat.compare [3, 1, 2]) :=
  c4_conversion_equals_iteration Nat wNat [3, 1, 2] 3 rfl (by decide)

/-- C5: converting an adapter that has already staged returns only the
remaining buffered elements from the cursor onward (first conjunct: for
every staged adapter, conversion returns the remaining buffer as is, not
the full original sequence). Second conjunct: for input [5,2,3] sorted
ascending, pulling one element yields 2 and leaves an adapter whose
conversion yields [3,5]. -/
theorem c5_conversion_after_partial_pull :
    (∀ (α : Type) (c : CompareFn α) (l : List α),
      vec_from { iter := IterState.Sorted l, compare := c } = .ok l) ∧
    (∃ s' : SortBy Nat,
      (sort_by [5, 2, 3] pcmpOf (fun v => v)).next = .ok (some 2, s') ∧
      s'.iter = IterState.Sorted [3, 5] ∧
      vec_from s' = .ok [3, 5]) := by
  refine ⟨fun α c l => rfl,
    ⟨{ iter := IterState.Sorted [3, 5], compare := (sort_by [5, 2, 3] pcmpOf (fun v => v)).compare },
      ?_, rfl, rfl⟩⟩
  rfl

/-- C6: a pairwise-incomparable key comparison (partial_cmp yields None,
e.g. NaN) is treated as Equal at that key and never panics: a single
incomparable key compares Equal (first two conjuncts); an incomparable key
appended with then_sort_by / then_sort_by_desc leaves the composed
comparator's verdict at that pair unchanged, deferring to higher-priority
keys or, via Equal, to stability (third and fourth conjuncts); and inside
any key chain an incomparable link is skipped, deferring to the remaining
keys (last conjunct). All modelled operations are total, so no comparison
aborts. -/
theorem c6_incomparable_is_equal :
    (∀ (α β : Type) (it : List α) (pc : β → β → Option Ordering) (f : α → β)
      (a b : α), pc (f a) (f b) = none →
      (sort_by it pc f).compare a b = Ordering.eq) ∧
    (∀ (α β : Type) (it : List α) (pc : β → β → Option Ordering) (f : α → β)
      (a b : α), pc (f b) (f a) = none →
      (sort_by_desc it pc f).compare a b = Ordering.eq) ∧
    (∀ (α β : Type) (s : SortBy α) (pc : β → β → Option Ordering) (f : α → β)
      (a b : α), pc (f a) (f b) = none →
      (s.then_sort_by pc f).compare a b = s.compare a b) ∧
    (∀ (α β : Type) (s : SortBy α) (pc : β → β → Option Ordering) (f : α → β)
      (a b : α), pc (f b) (f a) = none →
      (s.then_sort_by_desc pc f).compare a b = s.compare a b) ∧
    (∀ (α β : Type) (pc : β → β → Option Ordering) (f : α → β) (a b : α)
      (cs1 cs2 : List (CompareFn α)), pc (f a) (f b) = none →
      evalChain (cs1 ++ cmpKeyAsc pc f :: cs2) a b = evalChain (cs1 ++ cs2) a b) := by
  refine ⟨?_, ?_, ?_, ?_, ?_⟩
  · intro α β it pc f a b h
    show (pc (f a) (f b)).getD Ordering.eq = Ordering.eq
    rw [h]
    rfl
  · intro α β it pc f a b h
    show (pc (f b) (f a)).getD Ordering.eq = Ordering.eq
    rw [h]
    rfl
  · intro α β s pc f a b h
    show (match s.compare a b with
      | .lt => Ordering.lt
      | .gt => .gt
      | .eq => (pc (f a) (f b)).getD Ordering.eq) = s.compare a b
    rw [h]
    cases s.compare a b <;> rfl
  · intro α β s pc f a b h
    show (match s.compare a b with
      | .lt => Ordering.lt
      | .gt => .gt
      | .eq => (pc (f b) (f a)).getD Ordering.eq) = s.compare a b
    rw [h]
    cases s.compare a b <;> rfl
  · intro α β pc f a b cs1 cs2 h
    exact evalChain_skip pc f a b h cs1 cs2

theorem c6_incomparable_is_equal_witness :
    (sort_by [true] pcmpNone (fun v => v)).compare true false = Ordering.eq ∧
    (sort_by_desc [true] pcmpNone (fun v => v)).compare true false = Ordering.eq ∧
    (wBool.then_sort_by pcmpNone (fun v => v)).compare true false =
      wBool.compare true false ∧
    (wBool.then_sort_by_desc pcmpNone (fun v => v)).compare true false =
      wBool.compare true false ∧
    evalChain ([] ++ cmpKeyAsc pcmpNone (fun v => v) :: []) true false =
      evalChain ([] ++ []) true false :=
  ⟨c6_incomparable_is_equal.1 Bool Bool [true] pcmpNone (fun v => v) true false rfl,
    c6_incomparable_is_equal.2.1 Bool Bool [true] pcmpNone (fun v => v) true false rfl,
    c6_incomparable_is_equal.2.2.1 Bool Bool wBool pcmpNone (fun v => v) true false rfl,
    c6_incomparable_is_equal.2.2.2.1 Bool Bool wBool pcmpNone (fun v => v) true false rfl,
    c6_incomparable_is_equal.2.2.2.2 Bool Bool pcmpNone (fun v => v) true false [] [] rfl⟩

/-- C7: once next() has returned end-of-sequence, the successor adapter is
a fixpoint: every subsequent next() call returns end-of-sequence with the
same adapter (so pulls never error, panic, or restart), and its remaining
buffer is empty. -/
theorem c7_exhaustion_idempotent (α : Type) (s s' : SortBy α)
    (h : s.next = .ok (none, s')) :
    s'.next = .ok (none, s') ∧ vec_from s' = .ok [] := by
  obtain ⟨i, c⟩ := s
  cases i with
  | Unsorted o =>
    cases o with
    | none =>
      rw [next_unsorted_none] at h
      cases h
    | some it =>
      rw [next_unsorted] at h
      cases hs : sortVec c it with
      | nil =>
        rw [hs] at h
        cases h
        exact ⟨rfl, rfl⟩
      | cons x xs =>
        rw [hs] at h
        simp at h
  | Sorted l =>
    rw [next_sorted] at h
    cases l with
    | nil =>
      cases h
      exact ⟨rfl, rfl⟩
    | cons x xs => simp at h

theorem c7_exhaustion_idempotent_witness :
    SortBy.next wDone = .ok (none, wDone) ∧ vec_from wDone = .ok [] :=
  c7_exhaustion_idempotent Nat wDone wDone rfl

/-- C8: laziness of construction and extension. First conjunct: sort_by and
sort_by_desc hand the upstream source through untouched (still Unsorted,
still Some) and merely store the single-key comparator without applying it
or the key function. Second conjunct: then_sort_by and then_sort_by_desc
leave the staging state exactly as it was and merely wrap the stored
comparator with thenCmp, again applying nothing. Third conjunct: the drain
and stable sort (the only place the comparator is applied) happen in
next() on an unstaged adapter, and in vec_from on explicit conversion. -/
theorem c8_construction_is_lazy :
    (∀ (α β : Type) (it : List α) (pc : β → β → Option Ordering) (f : α → β),
      (sort_by it pc f).iter = IterState.Unsorted (some it) ∧
      (sort_by_desc it pc f).iter = IterState.Unsorted (some it) ∧
      (sort_by it pc f).compare = cmpKeyAsc pc f ∧
      (sort_by_desc it pc f).compare = cmpKeyDesc pc f) ∧
    (∀ (α β : Type) (s : SortBy α) (pc : β → β → Option Ordering) (f : α → β),
      (s.then_sort_by pc f).iter = s.iter ∧
      (s.then_sort_by_desc pc f).iter = s.iter ∧
      (s.then_sort_by pc f).compare = thenCmp s.compare (cmpKeyAsc pc f) ∧
      (s.then_sort_by_desc pc f).compare = thenCmp s.compare (cmpKeyDesc pc f)) ∧
    (∀ (α : Type) (c : CompareFn α) (it : List α),
      SortBy.next { iter := IterState.Unsorted (some it), compare := c } =
        .ok ((sortVec c it).head?,
          { iter := IterState.Sorted (sortVec c it).tail, compare := c }) ∧
      vec_from { iter := IterState.Unsorted (some it), compare := c } =
        .ok (sortVec c it)) :=
  ⟨fun _ _ _ _ _ => ⟨rfl, rfl, rfl, rfl⟩,
    fun _ _ _ _ _ => ⟨rfl, rfl, rfl, rfl⟩,
    fun _ c it => ⟨next_unsorted c it, rfl⟩⟩

/-- C9: the internal contract-violation aborts are unreachable through the
public API. For every adapter reachable by public calls: whenever the state
is Unsorted the source Option is Some (so the take().unwrap() in next and
in the Vec conversion cannot fire), and next and conversion always return
a value, never a panic; in particular the panic inside unwrap_sorted (whose
only call site applies it to a freshly built Sorted state) never fires. -/
theorem c9_panics_unreachable (α : Type) (s : SortBy α) (h : Reachable s) :
    SourcePresent s ∧ (∃ r, s.next = Except.ok r) ∧
      (∃ v, vec_from s = Except.ok v) := by
  have hsp := reachable_sourcePresent h
  refine ⟨hsp, ?_, ?_⟩
  · obtain ⟨i, c⟩ := s
    cases i with
    | Unsorted o =>
      cases o with
      | none => exact absurd rfl (hsp none rfl)
      | some it => exact ⟨_, next_unsorted c it⟩
    | Sorted l => exact ⟨_, next_sorted c l⟩
  · obtain ⟨i, c⟩ := s
    cases i with
    | Unsorted o =>
      cases o with
      | none => exact absurd rfl (hsp none rfl)
      | some it => exact ⟨_, rfl⟩
    | Sorted l => exact ⟨_, rfl⟩

theorem c9_panics_unreachable_witness :
    SourcePresent wNat ∧ (∃ r, SortBy.next wNat = Except.ok r) ∧
      (∃ v, vec_from wNat = Except.ok v) :=
  c9_panics_unreachable Nat wNat (Reachable.create [3, 1, 2] cmpNat)

/-- C10: appending a key to an adapter that has already staged succeeds and
has no observable effect: the staging state is unchanged, and both repeated
next() calls (any fuel) and conversion yield exactly what the original
adapter would have yielded. -/
theorem c10_extend_after_staging_noop (α β : Type) (s : SortBy α)
    (l : List α) (pc : β → β → Option Ordering) (f : α → β)
    (hiter : s.iter = IterState.Sorted l) :
    (s.then_sort_by pc f).iter = s.iter ∧
    (s.then_sort_by_desc pc f).iter = s.iter ∧
    (∀ n, drainFuel n (s.then_sort_by pc f) = drainFuel n s ∧
      drainFuel n (s.then_sort_by_desc pc f) = drainFuel n s) ∧
    vec_from (s.then_sort_by pc f) = vec_from s ∧
    vec_from (s.then_sort_by_desc pc f) = vec_from s := by
  obtain ⟨i, c⟩ := s
  cases hiter
  refine ⟨rfl, rfl, ?_, rfl, rfl⟩
  intro n
  exact ⟨(drainFuel_sorted _ l n).trans (drainFuel_sorted c l n).symm,
    (drainFuel_sorted _ l n).trans (drainFuel_sorted c l n).symm⟩

theorem c10_extend_after_staging_noop_witness :
    (wStaged.then_sort_by pcmpOf (fun v : Nat => v)).iter = wStaged.iter ∧
    (wStaged.then_sort_by_desc pcmpOf (fun v : Nat => v)).iter = wStaged.iter ∧
    (∀ n, drainFuel n (wStaged.then_sort_by pcmpOf (fun v : Nat => v)) =
        drainFuel n wStaged ∧
      drainFuel n (wStaged.then_sort_by_desc pcmpOf (fun v : Nat => v)) =
        drainFuel n wStaged) ∧
    vec_from (wStaged.then_sort_by pcmpOf (fun v : Nat => v)) = vec_from wStaged ∧
    vec_from (wStaged.then_sort_by_desc pcmpOf (fun v : Nat => v)) =
      vec_from wStaged :=
  c10_extend_after_staging_noop Nat Nat wStaged [1, 2] pcmpOf (fun v => v) rfl

end Sortby
